import Mathlib

/-!
# Verification of the `scisample` sampling library

A shallow embedding of the `scisample` repository (random sampler, base
sampler, utility functions and the maestro adapter entry point), together
with proofs of the specification's claims about it.

Python dictionaries are modelled as insertion-ordered association lists with
string keys, Python numbers as rationals, `random.random()` as an oracle
producing one fraction per draw, and fallible code as `Except` computations.
-/

namespace Scisample

/-! ## Python data model -/

/-- A Python scalar value appearing in sampler data: a number or a string. -/
inductive Value where
  | num (q : ℚ)
  | str (s : String)
deriving DecidableEq

/-- Association-list lookup, modelling indexing into a Python
insertion-ordered dictionary (`d[k]`, `d.get(k)`, `k in d`). -/
def alookup {β : Type} (k : String) : List (String × β) → Option β
  | [] => none
  | kv :: rest => if kv.1 = k then some kv.2 else alookup k rest

/-- Python dict assignment `d[k] = v`: replaces the value in place when the
key is present, appends a new binding otherwise. -/
def dictInsert {β : Type} (d : List (String × β)) (k : String) (v : β) :
    List (String × β) :=
  match alookup k d with
  | some _ => d.map (fun kv => if kv.1 = k then (k, v) else kv)
  | none => d ++ [(k, v)]

/-- A sample: a mapping from parameter name to value. -/
abbrev Sample : Type := List (String × Value)

/-! ## `scisample/utils.py` -/

/-- `scisample.utils.find_duplicates`, with the `seen` dictionary of counts
modelled as a function (`0` standing for an absent key). -/
def findDuplicatesAux {α : Type} [DecidableEq α] :
    List α → (α → Nat) → List α → List α
  | [], _, dupes => dupes
  | x :: rest, seen, dupes =>
    if seen x = 0 then
      findDuplicatesAux rest (fun y => if y = x then 1 else seen y) dupes
    else
      findDuplicatesAux rest (fun y => if y = x then seen y + 1 else seen y)
        (if seen x = 1 then dupes ++ [x] else dupes)

/-- `scisample.utils.find_duplicates`: every item that occurs more than once,
listed once (at its second occurrence). -/
def find_duplicates {α : Type} [DecidableEq α] (lst : List α) : List α :=
  findDuplicatesAux lst (fun _ => 0) []

/-- Python `str.strip()` on a character sequence: drop whitespace from both
ends. -/
def pstrip (l : List Char) : List Char :=
  ((l.dropWhile Char.isWhitespace).reverse.dropWhile Char.isWhitespace).reverse

/-- Python `str.split(",")` on a character sequence: split on every comma,
keeping empty fields (`"".split(",") == [""]`). -/
def splitComma : List Char → List (List Char)
  | [] => [[]]
  | c :: rest =>
    match splitComma rest with
    | [] => [[]]
    | f :: gs => if c = ',' then [] :: f :: gs else (c :: f) :: gs

/-- `scisample.utils.read_csv`, with the file contents given as its list of
lines: `[line.strip().split(",") for line in content]`. -/
def read_csv (lines : List (List Char)) : List (List (List Char)) :=
  lines.map (fun line => splitComma (pstrip line))

/-- `scisample.utils.transpose_tabular`: `list(map(list, zip(*rows)))` —
`zip` truncates to the shortest row. -/
def transpose_tabular {α : Type} (rows : List (List α)) : List (List α) :=
  match (rows.map List.length).min? with
  | none => []
  | some n => (List.range n).map (fun i => rows.filterMap (fun r => r.get? i))

/-- `scisample.utils.list_to_csv`: joins the row's fields with commas
(the `",".join([...]).format(*row)` idiom). -/
def list_to_csv : List (List Char) → List Char
  | [] => []
  | [r] => r
  | r :: rest => r ++ ',' :: list_to_csv rest

/-! ## `scisample/random.py`: configuration and sample production -/

/-- The `{min, max}` bounds of a ranged parameter. -/
structure Bounds where
  min : ℚ
  max : ℚ
deriving DecidableEq

/-- A random-sampler configuration: `num_samples`, the optional `constants`
and `parameters` blocks, and the (unused) optional `previous_samples` path. -/
structure RandomConfig where
  num_samples : Nat
  constants : Option (List (String × Value))
  parameters : Option (List (String × Bounds))
  previous_samples : Option String
deriving DecidableEq

/-- Python exceptions surfaced by the embedded code. -/
inductive PyErr where
  | keyError (key : String)
  | attributeError (msg : String)
  | samplingError (msg : String)
deriving DecidableEq

/-- One random draw dictionary for sample index `i`:
`min_dict[key] + random.random() * range_dict[key]` for each ranged
parameter, where `rand i k` is the fraction `random.random()` returned for
sample `i` and parameter `k`. -/
def randomDict (ps : List (String × Bounds)) (rand : Nat → String → ℚ)
    (i : Nat) : List (String × ℚ) :=
  ps.map (fun kv => (kv.1, kv.2.min + rand i kv.1 * (kv.2.max - kv.2.min)))

/-- `RandomSampler.get_samples`: build `num_samples` random dictionaries,
then for each one start from the `constants` entries (`new_sample.update`)
and assign every drawn value over them.  Accessing `data["parameters"]`
raises a `KeyError` when that block is missing. -/
def RandomSampler.get_samples (cfg : RandomConfig) (rand : Nat → String → ℚ) :
    Except PyErr (List Sample) :=
  match cfg.parameters with
  | none => .error (.keyError "parameters")
  | some ps =>
    let random_list := (List.range cfg.num_samples).map (randomDict ps rand)
    .ok (random_list.map (fun rd =>
      let base : Sample := cfg.constants.getD []
      rd.foldl (fun s kv => dictInsert s kv.1 (Value.num kv.2)) base))

/-- `RandomSampler.parameters` (the same derivation as the base class's
`_parameters_constants_parameters_only`): the keys of `constants` followed by
the keys of `parameters`, a missing block contributing no entries. -/
def RandomSampler.parameters (cfg : RandomConfig) : List String :=
  (match cfg.constants with
   | none => []
   | some c => c.map Prod.fst) ++
  (match cfg.parameters with
   | none => []
   | some p => p.map Prod.fst)

/-! ## `scisample/base_sampler.py`: shared variable checks -/

/-- The error raised by each shared `_check_variables` check (through
`log_and_raise_exception`, whose body is not among the supplied sources;
modelled from the spec: it logs and raises with the supplied message).  The
duplicate-name message interpolates `str(dupes)`; the set of names is
carried here as a deduplicated list. -/
inductive CheckErr where
  | notStrings
  | emptyParams
  | duplicates (dupes : List String)
deriving DecidableEq

/-- `BaseSampler._check_variables_strings`: in this embedding parameter
names are strings by construction, so `isinstance(parameter, str)` holds of
every entry and the check passes. -/
def checkVariablesStrings (_names : List String) : Except CheckErr Unit :=
  .ok ()

/-- `BaseSampler._check_variables_existence`. -/
def checkVariablesExistence (names : List String) : Except CheckErr Unit :=
  if names.length = 0 then .error .emptyParams else .ok ()

/-- `BaseSampler._check_variables_for_dups`:
`len(parameters) != len(set(parameters))` (the set's size is the length of
the deduplicated list), raising with `set(find_duplicates(parameters))`. -/
def checkVariablesForDups (names : List String) : Except CheckErr Unit :=
  if names.length ≠ names.dedup.length then
    .error (.duplicates (find_duplicates names).dedup)
  else .ok ()

/-- `BaseSampler._check_variables`: the three checks in order. -/
def checkVariables (names : List String) : Except CheckErr Unit := do
  checkVariablesStrings names
  checkVariablesExistence names
  checkVariablesForDups names

/-! ## `scisample/base_sampler.py`: schema checking -/

/-- `BaseSampler.ALLOWED_SAMPLING_KEYS`. -/
def ALLOWED_SAMPLING_KEYS : List String :=
  ["best_candidate", "column_list", "cross_product", "csv", "custom",
   "list", "random"]

/-- The three failure modes of the schema-validation capability. -/
inductive SchemaErr where
  | valueError
  | keyError
  | validationError
deriving DecidableEq

/-- Sampler data as consumed by `check_validity`: its optional `type` entry,
whether the data is structurally valid for that type's schema, and the
Python `repr` of the whole mapping (interpolated into diagnostics). -/
structure SamplerData where
  type? : Option String
  structValid : Bool
  reprStr : String

/-- Modelled from the spec: `scisample.schema.validate_sampler` (its module
is not among the supplied sources) raises a `ValueError` when no `type` key
is present, a `KeyError` when the `type` is not among the allowed strategy
keys, and a `jsonschema.ValidationError` when the data is otherwise
structurally invalid for its schema. -/
def validate_sampler (d : SamplerData) : Except SchemaErr Unit :=
  match d.type? with
  | none => .error .valueError
  | some t =>
    if t ∈ ALLOWED_SAMPLING_KEYS then
      if d.structValid then .ok () else .error .validationError
    else .error .keyError

/-- `BaseSampler.check_validity`: delegate to `validate_sampler` and turn
each failure mode into its diagnostic message. -/
def check_validity (d : SamplerData) : Except String Unit :=
  match validate_sampler d with
  | .ok _ => .ok ()
  | .error .valueError =>
      .error ("No \x27type\x27 entry found in sampler data " ++ d.reprStr)
  | .error .keyError =>
      .error ("Sampler type " ++ (d.type?.getD "") ++ " not found in schema")
  | .error .validationError => .error "Sampler data is invalid"

/-! ## `scisample/base_sampler.py`: `parameter_block` -/

/-- One entry of the derived parameter block: the ordered values of one
parameter across all samples, and its templating label. -/
structure PBEntry where
  values : List Value
  label : String
deriving DecidableEq

/-- One step of building `BaseSampler.parameter_block`: on first sight of a
key create its entry (empty values, label `"<key>.%%"`), then append the
sample's value for that key. -/
def pbInsert (pb : List (String × PBEntry)) (k : String) (v : Value) :
    List (String × PBEntry) :=
  match alookup k pb with
  | none => pb ++ [(k, ⟨[v], k ++ ".%%"⟩)]
  | some e =>
      pb.map (fun kv => if kv.1 = k then (k, ⟨e.values ++ [v], e.label⟩) else kv)

/-- `BaseSampler.parameter_block` computed from the produced samples:
iterate the samples in order and, within each, its items in order. -/
def parameter_block (samples : List Sample) : List (String × PBEntry) :=
  samples.foldl (fun pb s => s.foldl (fun pb2 kv => pbInsert pb2 kv.1 kv.2) pb) []

/-! ## `scisample/base_sampler.py`: `downselect` -/

/-- Squared Euclidean distance between two coordinate rows (the comparisons
made by `downselect` under the true Euclidean distance agree with the same
comparisons under its square). -/
def sqDist (p q : List ℚ) : ℚ :=
  ((p.zip q).map (fun ab => (ab.1 - ab.2) * (ab.1 - ab.2))).sum

/-- Squared distance from `pos` to its nearest point of `pts`
(`spatial.KDTree(pts).query(pos)[0]`, squared). -/
def minSqDist (pts : List (List ℚ)) (pos : List ℚ) : ℚ :=
  match pts with
  | [] => 0
  | p :: rest => rest.foldl (fun acc q => min acc (sqDist pos q)) (sqDist pos p)

/-- The inner scan of `BaseSampler.downselect`:
`j = bign; d = 0.0; for i in range(1, bign): dist = tree.query(pos)[0];
if dist > d: j = i; d = dist`. -/
def bestCandidate (cands : List (List ℚ)) (pts : List (List ℚ)) : Nat × ℚ :=
  (List.range' 1 (cands.length - 1)).foldl
    (fun jd i =>
      if jd.2 < minSqDist pts (cands.getD i []) then
        (i, minSqDist pts (cands.getD i []))
      else jd)
    (cands.length, 0)

/-- The message of the search-exhaustion exception raised by `downselect`. -/
def downselectFailMsg : String :=
  "During \x27downselect\x27, failed to find any candidates in the tree."

/-- The selection loop of `downselect` (`for n in range(n0, num_points)`),
with `k` iterations remaining, `pts` the points selected so far and `ids`
their original indices. -/
def downselectAux (cands : List (List ℚ)) :
    Nat → List (List ℚ) → List Nat → Except String (List Nat)
  | 0, _, ids => .ok ids
  | k + 1, pts, ids =>
    if (bestCandidate cands pts).1 = cands.length then .error downselectFailMsg
    else
      downselectAux cands k (pts ++ [cands.getD (bestCandidate cands pts).1 []])
        (ids ++ [(bestCandidate cands pts).1])

/-- `BaseSampler.downselect` on the branch without a `previous_samples` key:
`rows` is the cached sample list, `coords` the projection of a row onto the
declared parameter columns (`df[columns].values`), and the result the rows
at the selected indices in order of selection (the new cached sample list).
On an empty cache `candidates[0]` raises an `IndexError`. -/
def downselect {α : Type} (rows : List α) (coords : α → List ℚ)
    (num_points : Nat) : Except String (List α) :=
  match rows with
  | [] => .error "IndexError: list index out of range"
  | r0 :: rest =>
    (downselectAux ((r0 :: rest).map coords) (num_points - 1)
        [coords r0] [0]).map
      (fun ids => ids.filterMap (fun j => (r0 :: rest).get? j))

/-! ## `scisample/random.py`: `is_valid` and `scisample/interface.py` -/

/-- The method names defined by the abstract `SamplerInterface`. -/
def SamplerInterface.methodNames : List String :=
  ["data", "check_validity", "get_samples", "parameters", "parameter_block"]

/-- The method names defined by `BaseSampler`. -/
def BaseSampler.methodNames : List String :=
  ["check_validity", "data", "_parameters_constants_parameters_only",
   "_check_variables", "_check_variables_strings",
   "_check_variables_existence", "_check_variables_for_dups",
   "parameter_block", "maestro_pgen", "downselect"]

/-- Whether `super(RandomSampler, self).is_valid` resolves: neither
`BaseSampler` nor `SamplerInterface` defines an `is_valid` method. -/
def superHasIsValid : Bool :=
  BaseSampler.methodNames.contains "is_valid" ||
    SamplerInterface.methodNames.contains "is_valid"

/-- Python `str(x).isnumeric()` applied to a numeric bound: true exactly
when the string form consists of digit characters only, i.e. for
nonnegative integers (a minus sign or a decimal point fails the check). -/
def isNumericLooking (q : ℚ) : Bool :=
  decide (q.den = 1 ∧ 0 ≤ q.num)

/-- The message of each shared check (interpolating the duplicate set). -/
def checkErrMsg : CheckErr → String
  | .notStrings => "constants and parameters must be strings"
  | .emptyParams =>
      "Either constants or parameters must be included in the sampler data"
  | .duplicates dupes =>
      "The following constants or parameters are defined more than once: "
        ++ String.intercalate ", " dupes

/-- The body of `RandomSampler.is_valid` below the `super().is_valid()`
line: the shared variable checks, then the per-bound numeric checks
(unreachable through the method itself, which fails at the super call). -/
def isValidChecks (cfg : RandomConfig) : Except PyErr Bool := do
  match checkVariables (RandomSampler.parameters cfg) with
  | .error e => throw (.samplingError (checkErrMsg e))
  | .ok _ => pure ()
  match cfg.parameters with
  | none => throw (.keyError "parameters")
  | some ps =>
    for kv in ps do
      if !isNumericLooking kv.2.min then
        throw (.samplingError "parameter must have a numeric minimum")
      if !isNumericLooking kv.2.max then
        throw (.samplingError "parameter must have a numeric maximum")
    return true

/-- `RandomSampler.is_valid`: the first statement invokes
`super(RandomSampler, self).is_valid()`, and no superclass defines that
attribute, so the call raises an `AttributeError` before any validation. -/
def RandomSampler.is_valid (cfg : RandomConfig) : Except PyErr Bool :=
  if superHasIsValid then isValidChecks cfg
  else
    .error (.attributeError
      "\x27super\x27 object has no attribute \x27is_valid\x27")

/-! ## `bin/pgen_scisample.py`: the adapter entry point -/

/-- Result of evaluating `env.find("SAMPLE_DICTIONARY").value`.  Modelled
from the spec: the orchestrator environment lookup (the orchestrator's
library is not among the supplied sources) either resolves to a value or
fails with the `ValueError` that the adapter catches. -/
inductive EnvLookup where
  | found (v : String)
  | raisesValueError
deriving DecidableEq

/-- Evaluate the environment lookup as an `Except` computation. -/
def envFindValue : EnvLookup → Except String String
  | .found v => .ok v
  | .raisesValueError => .error "ValueError"

/-- Python `kwargs.get(key, default)` with the default expression given as a
computation: Python evaluates call arguments eagerly, so an exception in
the default propagates even when the key is present. -/
def pyDictGet (kwargs : List (String × String)) (key : String)
    (dflt : Except String String) : Except String String := do
  let d ← dflt
  pure ((alookup key kwargs).getD d)

/-- The message of the adapter's configuration error. -/
def pgenRequiredMsg : String :=
  "this pgen code requires SAMPLE_DICTIONARY " ++
    "to be defined in the yaml specification"

/-- `bin.pgen_scisample.get_custom_generator`, up to resolving the sampling
configuration: `kwargs.get("sample_dictionary", env.find(...).value)` inside
a `try` that turns a `ValueError` into the configuration error.  (The
subsequent `new_sampler(...).maestro_pgen` construction lives outside the
supplied sources.) -/
def get_custom_generator (env : EnvLookup)
    (kwargs : List (String × String)) : Except String String :=
  match pyDictGet kwargs "sample_dictionary" (envFindValue env) with
  | .ok v => .ok v
  | .error _ => .error pgenRequiredMsg

/-! ## Lemmas about the dictionary model -/

theorem alookup_eq_none_iff {β : Type} (k : String) (d : List (String × β)) :
    alookup k d = none ↔ k ∉ d.map Prod.fst := by
  induction d with
  | nil => simp [alookup]
  | cons kv rest ih =>
    by_cases h : kv.1 = k
    · simp [alookup, h]
    · have h' : ¬k = kv.1 := fun he => h he.symm
      simp [alookup, h, ih, h']

theorem alookup_of_mem_of_nodup {β : Type} {k : String} {v : β}
    {d : List (String × β)} (hnd : (d.map Prod.fst).Nodup)
    (hmem : (k, v) ∈ d) : alookup k d = some v := by
  induction d with
  | nil => simp at hmem
  | cons kv rest ih =>
    simp only [List.map_cons, List.nodup_cons] at hnd
    rcases List.mem_cons.1 hmem with h | h
    · subst h; simp [alookup]
    · have hk : kv.1 ≠ k := by
        intro he
        exact hnd.1 (he ▸ (List.mem_map.2 ⟨(k, v), h, rfl⟩))
      simp [alookup, hk, ih hnd.2 h]

theorem alookup_isSome_iff {β : Type} (k : String) (d : List (String × β)) :
    (alookup k d).isSome ↔ k ∈ d.map Prod.fst := by
  rcases h : alookup k d with _ | v
  · simpa using (alookup_eq_none_iff k d).1 h
  · simp only [Option.isSome_some, true_iff]
    by_contra hmem
    rw [(alookup_eq_none_iff k d).2 hmem] at h
    exact Option.noConfusion h

theorem alookup_append_left {β : Type} {k : String} {v : β}
    {d₁ : List (String × β)} (d₂ : List (String × β))
    (h : alookup k d₁ = some v) : alookup k (d₁ ++ d₂) = some v := by
  induction d₁ with
  | nil => simp [alookup] at h
  | cons kv rest ih =>
    by_cases hk : kv.1 = k <;> simp_all [alookup]

theorem alookup_append_right {β : Type} {k : String}
    {d₁ : List (String × β)} (d₂ : List (String × β))
    (h : alookup k d₁ = none) : alookup k (d₁ ++ d₂) = alookup k d₂ := by
  induction d₁ with
  | nil => simp
  | cons kv rest ih =>
    by_cases hk : kv.1 = k <;> simp_all [alookup]

theorem alookup_map_update_of_ne {β : Type} {k k' : String} (hne : k' ≠ k)
    (d : List (String × β)) (v : β) :
    alookup k' (d.map (fun kv => if kv.1 = k then (k, v) else kv)) =
      alookup k' d := by
  induction d with
  | nil => simp
  | cons kv rest ih =>
    by_cases hk : kv.1 = k
    · have : k ≠ k' := fun h => hne h.symm
      simp [alookup, hk, this, hne, ih]
    · by_cases hk' : kv.1 = k' <;> simp [alookup, hk, hk', hne, ih]

theorem alookup_map_update_self {β : Type} {k : String} {w : β}
    {d : List (String × β)} (h : alookup k d = some w) (v : β) :
    alookup k (d.map (fun kv => if kv.1 = k then (k, v) else kv)) = some v := by
  induction d with
  | nil => simp [alookup] at h
  | cons kv rest ih =>
    by_cases hk : kv.1 = k
    · simp [alookup, hk]
    · simp only [alookup, hk, if_false] at h
      simp [alookup, hk, ih h]

theorem alookup_dictInsert {β : Type} (d : List (String × β))
    (k k' : String) (v : β) :
    alookup k' (dictInsert d k v) = if k' = k then some v else alookup k' d := by
  unfold dictInsert
  rcases h : alookup k d with _ | w
  · by_cases hk : k' = k
    · subst hk
      simp [alookup_append_right _ h, alookup]
    · rcases h' : alookup k' d with _ | w'
      · rw [alookup_append_right _ h']
        simp [alookup, hk, Ne.symm hk]
      · simp [alookup_append_left _ h', hk]
  · by_cases hk : k' = k
    · subst hk; simp [alookup_map_update_self h v]
    · simp [alookup_map_update_of_ne hk d v, hk]

/-! ## Lemmas about `find_duplicates` -/

theorem mem_findDuplicatesAux {α : Type} [DecidableEq α] (l : List α) :
    ∀ (seen : α → Nat) (dupes : List α),
      (∀ y, y ∈ dupes ↔ 2 ≤ seen y) →
      ∀ y, y ∈ findDuplicatesAux l seen dupes ↔ 2 ≤ seen y + l.count y := by
  induction l with
  | nil =>
    intro seen dupes h y
    simpa [findDuplicatesAux] using h y
  | cons x rest ih =>
    intro seen dupes h y
    simp only [findDuplicatesAux]
    by_cases hx : seen x = 0
    · rw [if_pos hx]
      have hinv : ∀ z, z ∈ dupes ↔ 2 ≤ (fun y => if y = x then 1 else seen y) z := by
        intro z
        by_cases hz : z = x
        · rw [(by simp [hz] : (fun y => if y = x then 1 else seen y) z = 1)]
          constructor
          · intro hm
            have h2 := (h z).1 hm
            rw [hz, hx] at h2
            omega
          · intro h2; omega
        · rw [(by simp [hz] : (fun y => if y = x then 1 else seen y) z = seen z)]
          exact h z
      have hres := ih _ dupes hinv y
      by_cases hy : y = x
      · rw [if_pos hy] at hres
        rw [hres, hy, List.count_cons_self, hx]
        omega
      · rw [if_neg hy] at hres
        rw [hres, List.count_cons_of_ne hy]
    · rw [if_neg hx]
      have hinv : ∀ z,
          z ∈ (if seen x = 1 then dupes ++ [x] else dupes) ↔
            2 ≤ (fun y => if y = x then seen y + 1 else seen y) z := by
        intro z
        by_cases hz : z = x
        · rw [(by simp [hz] : (fun y => if y = x then seen y + 1 else seen y) z
              = seen z + 1)]
          by_cases h1 : seen x = 1
          · rw [if_pos h1, hz]
            simp [h1]
          · rw [if_neg h1, h z, hz]
            have h1' : ¬seen x = 0 := hx
            omega
        · rw [(by simp [hz] : (fun y => if y = x then seen y + 1 else seen y) z
              = seen z)]
          by_cases h1 : seen x = 1
          · rw [if_pos h1]
            simp [hz, h z]
          · rw [if_neg h1]
            exact h z
      have hres := ih _ _ hinv y
      by_cases hy : y = x
      · rw [if_pos hy] at hres
        rw [hres, hy, List.count_cons_self]
        omega
      · rw [if_neg hy] at hres
        rw [hres, List.count_cons_of_ne hy]

theorem mem_find_duplicates_iff {α : Type} [DecidableEq α] (l : List α)
    (y : α) : y ∈ find_duplicates l ↔ 2 ≤ l.count y := by
  have := mem_findDuplicatesAux l (fun _ => 0) []
    (by intro z; simp) y
  simpa [find_duplicates] using this

theorem nodup_of_length_eq_dedup_length {α : Type} [DecidableEq α]
    {l : List α} (h : l.length = l.dedup.length) : l.Nodup := by
  have hs := List.dedup_sublist l
  have heq := hs.eq_of_length h.symm
  rw [← heq]
  exact List.nodup_dedup l

/-! ## Lemmas about the CSV utilities -/

theorem splitComma_ne_nil (l : List Char) : splitComma l ≠ [] := by
  cases l with
  | nil => simp [splitComma]
  | cons c rest =>
    simp only [splitComma]
    rcases h : splitComma rest with _ | ⟨f, gs⟩
    · simp
    · by_cases hc : c = ',' <;> simp [hc]

theorem splitComma_append {s t f : List Char} {gs : List (List Char)}
    (hs : ',' ∉ s) (ht : splitComma t = f :: gs) :
    splitComma (s ++ t) = (s ++ f) :: gs := by
  induction s with
  | nil => simpa using ht
  | cons c s' ih =>
    have hc : c ≠ ',' := fun h => hs (h ▸ List.mem_cons_self c s')
    have hs' : ',' ∉ s' := fun h => hs (List.mem_cons_of_mem c h)
    simp only [List.cons_append, splitComma, List.append_eq]
    rw [ih hs']
    simp [hc]

theorem splitComma_of_no_comma {s : List Char} (hs : ',' ∉ s) :
    splitComma s = [s] := by
  have h := @splitComma_append s [] [] [] hs rfl
  simpa using h

theorem splitComma_cons_comma (l : List Char) :
    splitComma (',' :: l) = [] :: splitComma l := by
  simp only [splitComma]
  rcases h : splitComma l with _ | ⟨f, gs⟩
  · exact absurd h (splitComma_ne_nil l)
  · simp

theorem splitComma_list_to_csv (row : List (List Char)) (hrow : row ≠ [])
    (hc : ∀ s ∈ row, ',' ∉ s) : splitComma (list_to_csv row) = row := by
  induction row with
  | nil => exact absurd rfl hrow
  | cons r rest ih =>
    cases rest with
    | nil =>
      simp only [list_to_csv]
      exact splitComma_of_no_comma (hc r (List.mem_cons_self r []))
    | cons r2 rest2 =>
      have hrec := ih (by simp) (fun s hs => hc s (List.mem_cons_of_mem r hs))
      have hr : ',' ∉ r := hc r (List.mem_cons_self _ _)
      show splitComma (r ++ ',' :: list_to_csv (r2 :: rest2)) = r :: r2 :: rest2
      rw [splitComma_append hr (splitComma_cons_comma (list_to_csv (r2 :: rest2)))]
      simp [hrec]

theorem list_to_csv_head_not_ws (row : List (List Char))
    (h : ∀ s ∈ row, ∀ c, s.head? = some c → c.isWhitespace = false) :
    ∀ c, (list_to_csv row).head? = some c → c.isWhitespace = false := by
  intro c hc
  cases row with
  | nil => simp [list_to_csv] at hc
  | cons r rest =>
    cases rest with
    | nil =>
      exact h r (List.mem_cons_self _ _) c hc
    | cons r2 rest2 =>
      rw [show list_to_csv (r :: r2 :: rest2) =
            r ++ ',' :: list_to_csv (r2 :: rest2) from rfl] at hc
      cases r with
      | nil =>
        simp only [List.nil_append, List.head?_cons, Option.some.injEq] at hc
        rw [← hc]
        decide
      | cons a r' =>
        simp only [List.cons_append, List.head?_cons, Option.some.injEq] at hc
        exact h (a :: r') (List.mem_cons_self _ _) c (by rw [List.head?_cons, hc])

theorem getLast?_append_cons (l₁ : List Char) (c : Char) (l₂ : List Char) :
    (l₁ ++ c :: l₂).getLast? = (c :: l₂).getLast? := by
  induction l₁ with
  | nil => rfl
  | cons a l ih =>
    rcases h : l ++ c :: l₂ with _ | ⟨b, t⟩
    · exact absurd h (by simp)
    · rw [List.cons_append, h, List.getLast?_cons_cons, ← h, ih]

theorem list_to_csv_getLast_not_ws (row : List (List Char))
    (h : ∀ s ∈ row, ∀ c, s.getLast? = some c → c.isWhitespace = false) :
    ∀ c, (list_to_csv row).getLast? = some c → c.isWhitespace = false := by
  induction row with
  | nil => intro c hc; simp [list_to_csv] at hc
  | cons r rest ih =>
    intro c hc
    cases rest with
    | nil => exact h r (List.mem_cons_self _ _) c hc
    | cons r2 rest2 =>
      rw [show list_to_csv (r :: r2 :: rest2) =
            r ++ ',' :: list_to_csv (r2 :: rest2) from rfl] at hc
      rw [getLast?_append_cons] at hc
      rcases hL : list_to_csv (r2 :: rest2) with _ | ⟨l0, ls⟩
      · rw [hL] at hc
        simp only [List.getLast?_singleton, Option.some.injEq] at hc
        rw [← hc]
        decide
      · rw [hL, List.getLast?_cons_cons] at hc
        exact ih (fun s hs => h s (List.mem_cons_of_mem r hs)) c (by rw [hL, hc])

theorem dropWhile_eq_self_of_head {p : Char → Bool} {l : List Char}
    (h : ∀ c, l.head? = some c → p c = false) : l.dropWhile p = l := by
  cases l with
  | nil => rfl
  | cons a l' => simp [List.dropWhile_cons, h a rfl]

theorem pstrip_eq_self {l : List Char}
    (h1 : ∀ c, l.head? = some c → c.isWhitespace = false)
    (h2 : ∀ c, l.getLast? = some c → c.isWhitespace = false) :
    pstrip l = l := by
  unfold pstrip
  rw [dropWhile_eq_self_of_head h1]
  rw [dropWhile_eq_self_of_head (fun c hc => h2 c (by rwa [List.head?_reverse] at hc))]
  exact List.reverse_reverse l

/-! ## Claim theorems: utilities and adapter -/

/-- [C9] Reading a CSV file whose lines are `1,2,3` and `4,5,6` yields
`[["1","2","3"],["4","5","6"]]`; transposing that result yields
`[["1","4"],["2","5"],["3","6"]]`; and formatting any non-empty list of
comma-free strings with no leading or trailing whitespace via `list_to_csv`
and then splitting it the way `read_csv` does (strip, then split on commas)
reproduces the original list. -/
theorem csv_utils_spec :
    read_csv [['1', ',', '2', ',', '3', '\n'], ['4', ',', '5', ',', '6', '\n']] =
      [[['1'], ['2'], ['3']], [['4'], ['5'], ['6']]] ∧
    transpose_tabular [[['1'], ['2'], ['3']], [['4'], ['5'], ['6']]] =
      [[['1'], ['4']], [['2'], ['5']], [['3'], ['6']]] ∧
    ∀ row : List (List Char), row ≠ [] →
      (∀ s ∈ row, ',' ∉ s) →
      (∀ s ∈ row, ∀ c, s.head? = some c → c.isWhitespace = false) →
      (∀ s ∈ row, ∀ c, s.getLast? = some c → c.isWhitespace = false) →
      splitComma (pstrip (list_to_csv row)) = row := by
  refine ⟨by decide, by decide, ?_⟩
  intro row hne hcomma hhead hlast
  rw [pstrip_eq_self (list_to_csv_head_not_ws row hhead)
    (list_to_csv_getLast_not_ws row hlast)]
  exact splitComma_list_to_csv row hne hcomma

/-- [C9] witness: the round-trip at the concrete row `["a", "b"]`. -/
theorem csv_utils_spec_witness :
    splitComma (pstrip (list_to_csv [['a'], ['b']])) = [['a'], ['b']] :=
  csv_utils_spec.2.2 [['a'], ['b']] (by decide) (by decide) (by decide) (by decide)

/-- [C3] counterexample: with the `sample_dictionary` keyword supplied, the
result still depends on whether the environment lookup succeeds — Python
evaluates `kwargs.get`'s default argument eagerly, so a failing
`env.find("SAMPLE_DICTIONARY").value` raises the configuration error even
though the keyword is present, contradicting the claim that the lookup's
success or failure does not affect the result. -/
theorem get_custom_generator_env_dependent :
    get_custom_generator (.found "envcfg") [("sample_dictionary", "kwcfg")] =
        .ok "kwcfg" ∧
    get_custom_generator .raisesValueError [("sample_dictionary", "kwcfg")] =
        .error pgenRequiredMsg :=
  ⟨rfl, rfl⟩

/-- [C3] amended: the configuration is taken from the `sample_dictionary`
keyword when it is supplied and the — always eagerly evaluated — environment
lookup does not raise; when the keyword is absent and the lookup succeeds
the environment value is used; and whenever the lookup raises (keyword
present or not, in particular when neither source is available) the
configuration error stating that SAMPLE_DICTIONARY is required is raised. -/
theorem get_custom_generator_resolution (env : EnvLookup)
    (kwargs : List (String × String)) :
    get_custom_generator env kwargs =
      match env with
      | .found w => .ok ((alookup "sample_dictionary" kwargs).getD w)
      | .raisesValueError => .error pgenRequiredMsg := by
  cases env <;> rfl

/-- [C4] evaluating `is_valid` at the failing input — a configuration whose
`X2` range has the non-numeric-looking minimum `-1` — does not raise the
claimed "parameter must have a numeric minimum" message: the method's first
statement `super(RandomSampler, self).is_valid()` raises an
`AttributeError`, so the numeric-bound checks never run. -/
theorem is_valid_attribute_error_on_nonnumeric_min :
    RandomSampler.is_valid ⟨1, none, some [("X2", ⟨-1, 10⟩)], none⟩ =
      .error (.attributeError
        "\x27super\x27 object has no attribute \x27is_valid\x27") := rfl

/-- [C10] no superclass of `RandomSampler` defines `is_valid` (neither
`BaseSampler` nor the abstract `SamplerInterface`), so for every
configuration the method raises the attribute-lookup error at its first
statement and its validation checks are unreachable. -/
theorem is_valid_always_attribute_error :
    superHasIsValid = false ∧
    ∀ cfg : RandomConfig,
      RandomSampler.is_valid cfg =
        .error (.attributeError
          "\x27super\x27 object has no attribute \x27is_valid\x27") := by
  refine ⟨by decide, ?_⟩
  intro cfg
  unfold RandomSampler.is_valid
  rw [(by decide : superHasIsValid = false)]
  simp

/-- [C7] `check_validity` fails with exactly one of three messages according
to the schema-validation failure mode — missing `type`, unknown `type`
(embedding the configuration's own `type` value), or generic invalid
schema — returns normally when validation succeeds, and the three messages
are pairwise distinguishable whatever data they embed. -/
theorem check_validity_spec (d : SamplerData) :
    (d.type? = none →
      check_validity d =
        .error ("No \x27type\x27 entry found in sampler data " ++ d.reprStr)) ∧
    (∀ t, d.type? = some t → t ∉ ALLOWED_SAMPLING_KEYS →
      check_validity d =
        .error ("Sampler type " ++ t ++ " not found in schema")) ∧
    (∀ t, d.type? = some t → t ∈ ALLOWED_SAMPLING_KEYS → d.structValid = false →
      check_validity d = .error "Sampler data is invalid") ∧
    (validate_sampler d = .ok () → check_validity d = .ok ()) ∧
    (∀ s t : String,
      ("No \x27type\x27 entry found in sampler data " ++ s) ≠
        ("Sampler type " ++ t ++ " not found in schema")) ∧
    (∀ s : String,
      ("No \x27type\x27 entry found in sampler data " ++ s) ≠
        "Sampler data is invalid") ∧
    (∀ t : String,
      ("Sampler type " ++ t ++ " not found in schema") ≠
        "Sampler data is invalid") := by
  refine ⟨?_, ?_, ?_, ?_, ?_, ?_, ?_⟩
  · intro h
    unfold check_validity validate_sampler
    rw [h]
  · intro t ht hmem
    unfold check_validity validate_sampler
    rw [ht]
    simp [hmem]
  · intro t ht hmem hsv
    unfold check_validity validate_sampler
    rw [ht]
    simp [hmem, hsv]
  · intro h
    unfold check_validity
    rw [h]
  · intro s t h
    have h2 : ('N' : Char) = 'S' :=
      Option.some.inj (congrArg (fun x => x.data.head?) h)
    exact absurd h2 (by decide)
  · intro s h
    have h2 : ('N' : Char) = 'S' :=
      Option.some.inj (congrArg (fun x => x.data.head?) h)
    exact absurd h2 (by decide)
  · intro t h
    have h2 : ('t' : Char) = 'd' :=
      Option.some.inj (congrArg (fun x => x.data.get? 8) h)
    exact absurd h2 (by decide)

/-- [C7] witness: the three failure modes and the success mode at concrete
sampler data. -/
theorem check_validity_spec_witness :
    check_validity ⟨none, true, "r1"⟩ =
        .error ("No \x27type\x27 entry found in sampler data " ++ "r1") ∧
    check_validity ⟨some "bogus", true, "r2"⟩ =
        .error ("Sampler type " ++ "bogus" ++ " not found in schema") ∧
    check_validity ⟨some "random", false, "r3"⟩ =
        .error "Sampler data is invalid" ∧
    check_validity ⟨some "random", true, "r4"⟩ = .ok () :=
  ⟨(check_validity_spec ⟨none, true, "r1"⟩).1 rfl,
   (check_validity_spec ⟨some "bogus", true, "r2"⟩).2.1 "bogus" rfl (by decide),
   (check_validity_spec ⟨some "random", false, "r3"⟩).2.2.1 "random" rfl
     (by decide) rfl,
   (check_validity_spec ⟨some "random", true, "r4"⟩).2.2.2.1 rfl⟩

/-! ## Claim theorem: parameter derivation and duplicate detection -/

/-- [C5] the derived parameter list equals the keys of `constants` followed
by the keys of `parameters`, a missing block contributing no entries (and no
error, the derivation being total); and the shared parameter checks on a
configuration containing a name duplicated across the two blocks raise the
duplicate-naming error whose carried set holds exactly the names that occur
more than once. -/
theorem parameters_concat_and_dup_error (cfg : RandomConfig) :
    RandomSampler.parameters cfg =
      (cfg.constants.getD []).map Prod.fst ++
        (cfg.parameters.getD []).map Prod.fst ∧
    ∀ name : String,
      name ∈ (cfg.constants.getD []).map Prod.fst →
      name ∈ (cfg.parameters.getD []).map Prod.fst →
      checkVariables (RandomSampler.parameters cfg) =
          .error (.duplicates
            ((find_duplicates (RandomSampler.parameters cfg)).dedup)) ∧
        ∀ x, x ∈ (find_duplicates (RandomSampler.parameters cfg)).dedup ↔
          2 ≤ (RandomSampler.parameters cfg).count x := by
  have hconcat : RandomSampler.parameters cfg =
      (cfg.constants.getD []).map Prod.fst ++
        (cfg.parameters.getD []).map Prod.fst := by
    rcases cfg with ⟨n, co, po, pr⟩
    cases co <;> cases po <;> rfl
  refine ⟨hconcat, ?_⟩
  intro name hc hp
  rw [hconcat]
  set l := (cfg.constants.getD []).map Prod.fst ++
    (cfg.parameters.getD []).map Prod.fst with hldef
  have hmem : name ∈ l := by
    rw [hldef]
    exact List.mem_append_left _ hc
  have hcount : 2 ≤ l.count name := by
    rw [hldef, List.count_append]
    have h1 : 0 < List.count name ((cfg.constants.getD []).map Prod.fst) :=
      List.count_pos_iff.2 hc
    have h2 : 0 < List.count name ((cfg.parameters.getD []).map Prod.fst) :=
      List.count_pos_iff.2 hp
    omega
  have hnd : ¬l.Nodup := by
    intro hnd
    have := List.nodup_iff_count_le_one.1 hnd name
    omega
  have hlen : ¬l.length = l.dedup.length := fun h =>
    hnd (nodup_of_length_eq_dedup_length h)
  have hlen0 : ¬l.length = 0 := by
    intro h
    rw [List.length_eq_zero] at h
    rw [h] at hmem
    simp at hmem
  refine ⟨?_, ?_⟩
  · simp only [checkVariables, checkVariablesStrings, checkVariablesExistence,
      checkVariablesForDups, hlen0, if_false, ne_eq, hlen, not_false_iff,
      if_true]
    rfl
  · intro x
    rw [List.mem_dedup, mem_find_duplicates_iff]

/-- [C5] witness: a configuration with `X1` both a constant and a ranged
parameter. -/
theorem parameters_concat_and_dup_error_witness :
    checkVariables (RandomSampler.parameters
        ⟨1, some [("X1", Value.num 20)], some [("X1", ⟨0, 1⟩)], none⟩) =
      .error (.duplicates ((find_duplicates (RandomSampler.parameters
        ⟨1, some [("X1", Value.num 20)], some [("X1", ⟨0, 1⟩)], none⟩)).dedup)) ∧
    ∀ x, x ∈ (find_duplicates (RandomSampler.parameters
        ⟨1, some [("X1", Value.num 20)], some [("X1", ⟨0, 1⟩)], none⟩)).dedup ↔
      2 ≤ (RandomSampler.parameters
        ⟨1, some [("X1", Value.num 20)], some [("X1", ⟨0, 1⟩)], none⟩).count x :=
  (parameters_concat_and_dup_error _).2 "X1" (by decide) (by decide)

/-! ## Lemmas about random sample production -/

theorem randomDict_keys (ps : List (String × Bounds))
    (rand : Nat → String → ℚ) (i : Nat) :
    (randomDict ps rand i).map Prod.fst = ps.map Prod.fst := by
  simp [randomDict]

theorem alookup_randomDict (ps : List (String × Bounds))
    (rand : Nat → String → ℚ) (i : Nat) (k : String) :
    alookup k (randomDict ps rand i) =
      (alookup k ps).map (fun b => b.min + rand i k * (b.max - b.min)) := by
  induction ps with
  | nil => simp [randomDict, alookup]
  | cons kv rest ih =>
    by_cases h : kv.1 = k
    · subst h
      simp [randomDict, alookup]
    · simp only [randomDict, List.map_cons] at ih ⊢
      simp only [alookup, h, if_false]
      exact ih

theorem alookup_foldl_dictInsert (rs : List (String × ℚ)) (k : String) :
    ∀ base : Sample, (rs.map Prod.fst).Nodup →
    alookup k (rs.foldl (fun s kv => dictInsert s kv.1 (Value.num kv.2)) base) =
      match alookup k rs with
      | some q => some (Value.num q)
      | none => alookup k base := by
  induction rs with
  | nil =>
    intro base _
    simp [alookup]
  | cons kv rest ih =>
    intro base hnd
    simp only [List.map_cons, List.nodup_cons] at hnd
    simp only [List.foldl_cons]
    rw [ih (dictInsert base kv.1 (Value.num kv.2)) hnd.2]
    by_cases h : kv.1 = k
    · subst h
      have hnone : alookup kv.1 rest = none :=
        (alookup_eq_none_iff _ _).2 hnd.1
      rw [hnone]
      simp [alookup, alookup_dictInsert]
    · simp only [alookup, h, if_false]
      cases halr : alookup k rest with
      | none =>
        show alookup k (dictInsert base kv.1 (Value.num kv.2)) = alookup k base
        rw [alookup_dictInsert, if_neg (fun hh : k = kv.1 => h hh.symm)]
      | some q => rfl

/-- [C1] for every random-sampler configuration whose `parameters` block is
present with pairwise-distinct names and numeric bounds `min < max`, and
whatever fractions `random.random()` returns in `[0, 1)`, `get_samples`
returns exactly `num_samples` samples; in each sample every ranged
parameter's value is `min + f * (max - min)` for some drawn fraction
`f ∈ [0, 1)` (hence `min ≤ value < max`), every key of `constants` and of
`parameters` is present, and a constant is overridden only by a ranged
parameter of the same name (otherwise it keeps its constant value). -/
theorem random_get_samples_spec (cfg : RandomConfig)
    (rand : Nat → String → ℚ) (ps : List (String × Bounds))
    (cs : List (String × Value))
    (hps : cfg.parameters = some ps)
    (hcs : cfg.constants.getD [] = cs)
    (hrand : ∀ i k, 0 ≤ rand i k ∧ rand i k < 1)
    (hbounds : ∀ kv ∈ ps, kv.2.min < kv.2.max)
    (hndp : (ps.map Prod.fst).Nodup)
    (hndc : (cs.map Prod.fst).Nodup) :
    ∃ samples : List Sample,
      RandomSampler.get_samples cfg rand = .ok samples ∧
      samples.length = cfg.num_samples ∧
      ∀ s ∈ samples,
        (∀ kv ∈ ps, ∃ f : ℚ, 0 ≤ f ∧ f < 1 ∧
          alookup kv.1 s =
            some (.num (kv.2.min + f * (kv.2.max - kv.2.min))) ∧
          kv.2.min ≤ kv.2.min + f * (kv.2.max - kv.2.min) ∧
          kv.2.min + f * (kv.2.max - kv.2.min) < kv.2.max) ∧
        (∀ kv ∈ cs, (alookup kv.1 s).isSome ∧
          (alookup kv.1 ps = none → alookup kv.1 s = some kv.2)) ∧
        (∀ kv ∈ ps, (alookup kv.1 s).isSome) := by
  have hgs : RandomSampler.get_samples cfg rand =
      .ok (((List.range cfg.num_samples).map (randomDict ps rand)).map
        (fun rd =>
          rd.foldl (fun s kv => dictInsert s kv.1 (Value.num kv.2)) cs)) := by
    unfold RandomSampler.get_samples
    rw [hps]
    simp only [hcs]
  refine ⟨_, hgs, by simp, ?_⟩
  intro s hs
  simp only [List.mem_map, List.mem_range] at hs
  obtain ⟨rd, ⟨i, _, hrdi⟩, hsdef⟩ := hs
  subst hrdi
  subst hsdef
  have hndr : ((randomDict ps rand i).map Prod.fst).Nodup := by
    rw [randomDict_keys]
    exact hndp
  have hlook : ∀ k, alookup k ((randomDict ps rand i).foldl
      (fun s kv => dictInsert s kv.1 (Value.num kv.2)) cs) =
      match alookup k (randomDict ps rand i) with
      | some q => some (Value.num q)
      | none => alookup k cs :=
    fun k => alookup_foldl_dictInsert (randomDict ps rand i) k cs hndr
  refine ⟨?_, ?_, ?_⟩
  · intro kv hkv
    refine ⟨rand i kv.1, (hrand i kv.1).1, (hrand i kv.1).2, ?_, ?_, ?_⟩
    · rw [hlook kv.1, alookup_randomDict,
        alookup_of_mem_of_nodup hndp hkv]
      rfl
    · have h1 : (0 : ℚ) ≤ rand i kv.1 * (kv.2.max - kv.2.min) :=
        mul_nonneg (hrand i kv.1).1 (by linarith [hbounds kv hkv])
      linarith
    · have h2 : rand i kv.1 * (kv.2.max - kv.2.min) <
          1 * (kv.2.max - kv.2.min) :=
        mul_lt_mul_of_pos_right (hrand i kv.1).2
          (by linarith [hbounds kv hkv])
      linarith
  · intro kv hkv
    have hcsl : alookup kv.1 cs = some kv.2 :=
      alookup_of_mem_of_nodup hndc hkv
    rw [hlook kv.1, alookup_randomDict]
    constructor
    · cases alookup kv.1 ps
      · simpa using congrArg Option.isSome hcsl
      · simp
    · intro hnone
      rw [hnone]
      simpa using hcsl
  · intro kv hkv
    rw [hlook kv.1, alookup_randomDict,
      alookup_of_mem_of_nodup hndp hkv]
    simp

/-- [C1] witness: two samples with constant `X1` and range `X2 ∈ [5, 10)`,
with every random fraction equal to one half. -/
theorem random_get_samples_spec_witness :
    ∃ samples : List Sample,
      RandomSampler.get_samples
          ⟨2, some [("X1", Value.num 20)], some [("X2", ⟨5, 10⟩)], none⟩
          (fun _ _ => (1 : ℚ)/2) = .ok samples ∧
      samples.length =
        (⟨2, some [("X1", Value.num 20)], some [("X2", ⟨5, 10⟩)], none⟩ :
          RandomConfig).num_samples ∧
      ∀ s ∈ samples,
        (∀ kv ∈ [("X2", (⟨5, 10⟩ : Bounds))], ∃ f : ℚ, 0 ≤ f ∧ f < 1 ∧
          alookup kv.1 s =
            some (.num (kv.2.min + f * (kv.2.max - kv.2.min))) ∧
          kv.2.min ≤ kv.2.min + f * (kv.2.max - kv.2.min) ∧
          kv.2.min + f * (kv.2.max - kv.2.min) < kv.2.max) ∧
        (∀ kv ∈ [("X1", Value.num 20)], (alookup kv.1 s).isSome ∧
          (alookup kv.1 [("X2", (⟨5, 10⟩ : Bounds))] = none →
            alookup kv.1 s = some kv.2)) ∧
        (∀ kv ∈ [("X2", (⟨5, 10⟩ : Bounds))], (alookup kv.1 s).isSome) :=
  random_get_samples_spec
    ⟨2, some [("X1", Value.num 20)], some [("X2", ⟨5, 10⟩)], none⟩
    (fun _ _ => (1 : ℚ)/2) [("X2", ⟨5, 10⟩)] [("X1", Value.num 20)]
    rfl rfl (fun _ _ => ⟨by norm_num, by norm_num⟩) (by decide)
    (by decide) (by decide)

/-! ## Lemmas about `parameter_block` -/

theorem length_filterMap_of_isSome {α β : Type} {f : α → Option β}
    {l : List α} (h : ∀ x ∈ l, (f x).isSome) :
    (l.filterMap f).length = l.length := by
  induction l with
  | nil => rfl
  | cons x rest ih =>
    rcases hx : f x with _ | v
    · exact absurd (h x (List.mem_cons_self _ _)) (by simp [hx])
    · simp only [List.filterMap_cons, hx, List.length_cons]
      rw [ih (fun y hy => h y (List.mem_cons_of_mem x hy))]

theorem alookup_map_of_fn {β : Type} (keys : List String) (h : String → β)
    (k : String) :
    alookup k (keys.map (fun k2 => (k2, h k2))) =
      if k ∈ keys then some (h k) else none := by
  induction keys with
  | nil => simp [alookup]
  | cons k0 rest ih =>
    by_cases hk : k0 = k
    · subst hk
      simp [alookup]
    · have hk' : ¬k = k0 := fun he => hk he.symm
      simp only [List.map_cons, alookup, hk, if_false, ih, List.mem_cons]
      simp [hk']

theorem map_fst_update (pb : List (String × PBEntry)) (k : String)
    (e' : PBEntry) :
    (pb.map (fun kv => if kv.1 = k then (k, e') else kv)).map Prod.fst =
      pb.map Prod.fst := by
  induction pb with
  | nil => rfl
  | cons kv rest ih =>
    by_cases h : kv.1 = k <;> simp [h, ih]

theorem pbInsert_fresh {pb : List (String × PBEntry)} {k : String}
    (v : Value) (h : alookup k pb = none) :
    pbInsert pb k v = pb ++ [(k, ⟨[v], k ++ ".%%"⟩)] := by
  unfold pbInsert
  rw [h]

theorem foldl_pbInsert_fresh (s : Sample) :
    ∀ pb : List (String × PBEntry), (s.map Prod.fst).Nodup →
    (∀ k ∈ s.map Prod.fst, alookup k pb = none) →
    s.foldl (fun pb2 kv => pbInsert pb2 kv.1 kv.2) pb =
      pb ++ s.map (fun kv => (kv.1, (⟨[kv.2], kv.1 ++ ".%%"⟩ : PBEntry))) := by
  induction s with
  | nil => intro pb _ _; simp
  | cons kv rest ih =>
    intro pb hnd habs
    simp only [List.map_cons, List.nodup_cons] at hnd
    simp only [List.foldl_cons]
    rw [pbInsert_fresh kv.2 (habs kv.1 (by simp))]
    rw [ih _ hnd.2 ?fresh]
    · simp
    case fresh =>
      intro k hk
      have hne : kv.1 ≠ k := fun he => hnd.1 (he ▸ hk)
      rw [alookup_append_right _ (habs k (List.mem_cons_of_mem _ hk))]
      simp [alookup, hne]

theorem foldl_pbInsert_present (s : Sample) :
    ∀ pb : List (String × PBEntry), (s.map Prod.fst).Nodup →
    (pb.map Prod.fst).Nodup →
    (∀ k ∈ s.map Prod.fst, (alookup k pb).isSome) →
    s.foldl (fun pb2 kv => pbInsert pb2 kv.1 kv.2) pb =
      pb.map (fun ke =>
        match alookup ke.1 s with
        | some v => (ke.1, (⟨ke.2.values ++ [v], ke.2.label⟩ : PBEntry))
        | none => ke) := by
  induction s with
  | nil =>
    intro pb _ _ _
    simp only [List.foldl_nil]
    have : ∀ ke ∈ pb, (match alookup ke.1 ([] : Sample) with
        | some v => (ke.1, (⟨ke.2.values ++ [v], ke.2.label⟩ : PBEntry))
        | none => ke) = ke := by
      intro ke _
      rfl
    rw [List.map_congr_left this]
    simp
  | cons kv rest ih =>
    intro pb hnd hpbnd hsome
    simp only [List.map_cons, List.nodup_cons] at hnd
    simp only [List.foldl_cons]
    rcases he : alookup kv.1 pb with _ | e
    · exact absurd (hsome kv.1 (by simp)) (by simp [he])
    have hins : pbInsert pb kv.1 kv.2 =
        pb.map (fun p => if p.1 = kv.1 then
          (kv.1, (⟨e.values ++ [kv.2], e.label⟩ : PBEntry)) else p) := by
      unfold pbInsert
      rw [he]
    rw [hins]
    rw [ih _ hnd.2 ?pnd ?psome]
    · rw [List.map_map]
      apply List.map_congr_left
      intro ke hke
      by_cases hk : ke.1 = kv.1
      · have heq : e = ke.2 := by
          have h2 := alookup_of_mem_of_nodup hpbnd hke
          rw [hk] at h2
          rw [h2] at he
          exact (Option.some.inj he).symm
        have hlrest : alookup kv.1 rest = none := by
          rw [alookup_eq_none_iff]
          exact hnd.1
        have hhead : alookup ke.1 (kv :: rest) = some kv.2 := by
          show (if kv.1 = ke.1 then some kv.2 else alookup ke.1 rest) = some kv.2
          rw [if_pos hk.symm]
        simp only [Function.comp_apply, if_pos hk, hlrest, hhead]
        rw [heq, hk]
      · have hne : ¬ke.1 = kv.1 := hk
        have htail : alookup ke.1 (kv :: rest) = alookup ke.1 rest := by
          show (if kv.1 = ke.1 then some kv.2 else alookup ke.1 rest) = _
          rw [if_neg (fun he2 => hne he2.symm)]
        simp only [Function.comp_apply, if_neg hne, htail]
    case pnd =>
      rw [map_fst_update]
      exact hpbnd
    case psome =>
      intro k hk
      rw [alookup_isSome_iff, map_fst_update, ← alookup_isSome_iff]
      exact hsome k (List.mem_cons_of_mem _ hk)

theorem foldl_parameter_block_invariant (ss : List Sample) (s₀ : Sample)
    (hnd0 : (s₀.map Prod.fst).Nodup) :
    ∀ (pref : List Sample),
    (∀ s ∈ ss, (s.map Prod.fst).Nodup ∧
      (s.map Prod.fst).Perm (s₀.map Prod.fst)) →
    ss.foldl (fun pb s => s.foldl (fun pb2 kv => pbInsert pb2 kv.1 kv.2) pb)
        ((s₀.map Prod.fst).map (fun k =>
          (k, (⟨pref.filterMap (fun s => alookup k s), k ++ ".%%"⟩ : PBEntry)))) =
      (s₀.map Prod.fst).map (fun k =>
        (k, (⟨(pref ++ ss).filterMap (fun s => alookup k s),
          k ++ ".%%"⟩ : PBEntry))) := by
  induction ss with
  | nil => intro pref _; simp
  | cons s ss' ih =>
    intro pref hss
    obtain ⟨hsnd, hsperm⟩ := hss s (List.mem_cons_self _ _)
    simp only [List.foldl_cons]
    rw [foldl_pbInsert_present s _ hsnd ?pbnd ?psome]
    · rw [List.map_map]
      have hstep : ∀ k ∈ s₀.map Prod.fst,
          ((fun ke =>
            match alookup ke.1 s with
            | some v => (ke.1, (⟨ke.2.values ++ [v], ke.2.label⟩ : PBEntry))
            | none => ke) ∘ (fun k =>
              (k, (⟨pref.filterMap (fun s2 => alookup k s2),
                k ++ ".%%"⟩ : PBEntry)))) k =
          (fun k => (k, (⟨(pref ++ [s]).filterMap (fun s2 => alookup k s2),
            k ++ ".%%"⟩ : PBEntry))) k := by
        intro k hk
        have hks : k ∈ s.map Prod.fst := hsperm.mem_iff.2 hk
        rcases hv : alookup k s with _ | v
        · exact absurd ((alookup_isSome_iff k s).2 hks) (by simp [hv])
        · simp only [Function.comp_apply, hv]
          rw [List.filterMap_append]
          simp [hv]
      rw [List.map_congr_left hstep]
      have := ih (pref ++ [s])
        (fun s2 hs2 => hss s2 (List.mem_cons_of_mem _ hs2))
      rw [this]
      simp
    case pbnd =>
      have : ((s₀.map Prod.fst).map (fun k =>
          (k, (⟨pref.filterMap (fun s2 => alookup k s2),
            k ++ ".%%"⟩ : PBEntry)))).map Prod.fst = s₀.map Prod.fst := by
        rw [List.map_map]
        simp
      rw [this]
      exact hnd0
    case psome =>
      intro k hk
      rw [alookup_map_of_fn]
      rw [if_pos (hsperm.mem_iff.1 hk)]
      rfl

/-- [C8] for a non-empty sample list in which every sample's key set equals
the first sample's (as a set: each key list is a duplicate-free permutation
of the first sample's keys), `parameter_block` has one entry per key of the
first sample, in that first-seen order; each entry's values list collects
that key's values across the samples in sample order (hence has length N),
and each entry's label is the key followed by `".%%"`. -/
theorem parameter_block_spec (s₀ : Sample) (rest : List Sample)
    (hnd : ∀ s ∈ s₀ :: rest, (s.map Prod.fst).Nodup)
    (hperm : ∀ s ∈ s₀ :: rest, (s.map Prod.fst).Perm (s₀.map Prod.fst)) :
    parameter_block (s₀ :: rest) =
      (s₀.map Prod.fst).map (fun k =>
        (k, (⟨(s₀ :: rest).filterMap (fun s => alookup k s),
          k ++ ".%%"⟩ : PBEntry))) ∧
    (parameter_block (s₀ :: rest)).map Prod.fst = s₀.map Prod.fst ∧
    (parameter_block (s₀ :: rest)).length = s₀.length ∧
    ∀ k e, alookup k (parameter_block (s₀ :: rest)) = some e →
      e.label = k ++ ".%%" ∧
      e.values = (s₀ :: rest).filterMap (fun s => alookup k s) ∧
      e.values.length = (s₀ :: rest).length := by
  have hnd0 : (s₀.map Prod.fst).Nodup := hnd s₀ (List.mem_cons_self _ _)
  have hmain : parameter_block (s₀ :: rest) =
      (s₀.map Prod.fst).map (fun k =>
        (k, (⟨(s₀ :: rest).filterMap (fun s => alookup k s),
          k ++ ".%%"⟩ : PBEntry))) := by
    unfold parameter_block
    simp only [List.foldl_cons]
    have hfirst : s₀.foldl (fun pb2 kv => pbInsert pb2 kv.1 kv.2) [] =
        (s₀.map Prod.fst).map (fun k =>
          (k, (⟨[s₀].filterMap (fun s => alookup k s), k ++ ".%%"⟩ : PBEntry))) := by
      rw [foldl_pbInsert_fresh s₀ [] hnd0 (fun k _ => rfl)]
      rw [List.map_map]
      apply (List.nil_append _).symm.trans
      rw [List.nil_append]
      apply List.map_congr_left
      intro kv hkv
      have : alookup kv.1 s₀ = some kv.2 := alookup_of_mem_of_nodup hnd0 hkv
      simp [this]
    rw [hfirst]
    have := foldl_parameter_block_invariant rest s₀ hnd0 [s₀]
      (fun s hs => ⟨hnd s (List.mem_cons_of_mem _ hs),
        hperm s (List.mem_cons_of_mem _ hs)⟩)
    rw [this]
    rfl
  refine ⟨hmain, ?_, ?_, ?_⟩
  · rw [hmain, List.map_map]
    simp
  · rw [hmain]
    simp
  · intro k e hke
    rw [hmain, alookup_map_of_fn] at hke
    by_cases hk : k ∈ s₀.map Prod.fst
    · rw [if_pos hk] at hke
      obtain rfl : _ = e := Option.some.inj hke
      refine ⟨rfl, rfl, ?_⟩
      apply length_filterMap_of_isSome
      intro s hs
      rw [alookup_isSome_iff]
      exact (hperm s hs).mem_iff.2 hk
    · rw [if_neg hk] at hke
      exact Option.noConfusion hke

/-- [C8] witness: two samples over keys `a`, `b`, the second listing its
keys in the opposite order. -/
theorem parameter_block_spec_witness :
    parameter_block [[("a", Value.num 1), ("b", Value.num 2)],
        [("b", Value.num 4), ("a", Value.num 3)]] =
      ([("a", Value.num 1), ("b", Value.num 2)].map Prod.fst).map (fun k =>
        (k, (⟨[[("a", Value.num 1), ("b", Value.num 2)],
            [("b", Value.num 4), ("a", Value.num 3)]].filterMap
              (fun s => alookup k s), k ++ ".%%"⟩ : PBEntry))) ∧
    (parameter_block [[("a", Value.num 1), ("b", Value.num 2)],
        [("b", Value.num 4), ("a", Value.num 3)]]).map Prod.fst =
      [("a", Value.num 1), ("b", Value.num 2)].map Prod.fst ∧
    (parameter_block [[("a", Value.num 1), ("b", Value.num 2)],
        [("b", Value.num 4), ("a", Value.num 3)]]).length =
      [("a", Value.num 1), ("b", Value.num 2)].length ∧
    ∀ k e, alookup k (parameter_block [[("a", Value.num 1), ("b", Value.num 2)],
        [("b", Value.num 4), ("a", Value.num 3)]]) = some e →
      e.label = k ++ ".%%" ∧
      e.values = [[("a", Value.num 1), ("b", Value.num 2)],
        [("b", Value.num 4), ("a", Value.num 3)]].filterMap
          (fun s => alookup k s) ∧
      e.values.length = [[("a", Value.num 1), ("b", Value.num 2)],
        [("b", Value.num 4), ("a", Value.num 3)]].length :=
  parameter_block_spec [("a", Value.num 1), ("b", Value.num 2)]
    [[("b", Value.num 4), ("a", Value.num 3)]] (by decide) (by decide)

/-! ## Lemmas about squared distances -/

theorem sqDist_cons (a b : ℚ) (p q : List ℚ) :
    sqDist (a :: p) (b :: q) = (a - b) * (a - b) + sqDist p q := by
  simp [sqDist]

theorem sqDist_nonneg (p q : List ℚ) : 0 ≤ sqDist p q := by
  apply List.sum_nonneg
  intro x hx
  simp only [List.mem_map] at hx
  obtain ⟨ab, _, rfl⟩ := hx
  exact mul_self_nonneg _

theorem sqDist_self (p : List ℚ) : sqDist p p = 0 := by
  induction p with
  | nil => rfl
  | cons a p ih =>
    rw [sqDist_cons, ih, sub_self]
    norm_num

theorem sqDist_pos_of_ne {p q : List ℚ} (hlen : p.length = q.length)
    (hne : p ≠ q) : 0 < sqDist p q := by
  induction p generalizing q with
  | nil =>
    cases q with
    | nil => exact absurd rfl hne
    | cons b q => simp at hlen
  | cons a p ih =>
    cases q with
    | nil => simp at hlen
    | cons b q =>
      rw [sqDist_cons]
      by_cases hab : a = b
      · subst hab
        have hpq : p ≠ q := fun h => hne (by rw [h])
        have hp := ih (by simpa using hlen) hpq
        nlinarith [mul_self_nonneg (a - a)]
      · have h1 : 0 < (a - b) * (a - b) := mul_self_pos.2 (sub_ne_zero.2 hab)
        nlinarith [sqDist_nonneg p q]

theorem foldl_min_le_init (pos : List ℚ) (rest : List (List ℚ)) :
    ∀ acc : ℚ, rest.foldl (fun a q => min a (sqDist pos q)) acc ≤ acc := by
  induction rest with
  | nil => intro acc; exact le_refl acc
  | cons r rest ih =>
    intro acc
    simp only [List.foldl_cons]
    exact le_trans (ih (min acc (sqDist pos r))) (min_le_left _ _)

theorem foldl_min_le_mem (pos : List ℚ) (rest : List (List ℚ)) :
    ∀ acc : ℚ, ∀ q ∈ rest,
      rest.foldl (fun a q2 => min a (sqDist pos q2)) acc ≤ sqDist pos q := by
  induction rest with
  | nil => intro _ q hq; simp at hq
  | cons r rest ih =>
    intro acc q hq
    simp only [List.foldl_cons]
    rcases List.mem_cons.1 hq with rfl | hq2
    · exact le_trans (foldl_min_le_init pos rest _) (min_le_right _ _)
    · exact ih _ q hq2

theorem minSqDist_le {pts : List (List ℚ)} {q : List ℚ} (pos : List ℚ)
    (hq : q ∈ pts) : minSqDist pts pos ≤ sqDist pos q := by
  cases pts with
  | nil => simp at hq
  | cons p rest =>
    simp only [minSqDist]
    rcases List.mem_cons.1 hq with rfl | hq2
    · exact foldl_min_le_init pos rest _
    · exact foldl_min_le_mem pos rest _ q hq2

theorem foldl_min_lower (pos : List ℚ) (rest : List (List ℚ)) {c : ℚ} :
    ∀ acc : ℚ, c ≤ acc → (∀ q ∈ rest, c ≤ sqDist pos q) →
      c ≤ rest.foldl (fun a q2 => min a (sqDist pos q2)) acc := by
  induction rest with
  | nil => intro acc h _; exact h
  | cons r rest ih =>
    intro acc hacc hall
    simp only [List.foldl_cons]
    exact ih _ (le_min hacc (hall r (List.mem_cons_self _ _)))
      (fun q hq => hall q (List.mem_cons_of_mem _ hq))

theorem foldl_min_pos (pos : List ℚ) (rest : List (List ℚ)) :
    ∀ acc : ℚ, 0 < acc → (∀ q ∈ rest, 0 < sqDist pos q) →
      0 < rest.foldl (fun a q2 => min a (sqDist pos q2)) acc := by
  induction rest with
  | nil => intro acc h _; exact h
  | cons r rest ih =>
    intro acc hacc hall
    simp only [List.foldl_cons]
    exact ih _ (lt_min hacc (hall r (List.mem_cons_self _ _)))
      (fun q hq => hall q (List.mem_cons_of_mem _ hq))

theorem minSqDist_nonneg (pts : List (List ℚ)) (pos : List ℚ) :
    0 ≤ minSqDist pts pos := by
  cases pts with
  | nil => exact le_refl 0
  | cons p rest =>
    simp only [minSqDist]
    exact foldl_min_lower pos rest _ (sqDist_nonneg _ _)
      (fun q _ => sqDist_nonneg _ _)

theorem minSqDist_pos {pts : List (List ℚ)} (pos : List ℚ) (hne : pts ≠ [])
    (hall : ∀ q ∈ pts, 0 < sqDist pos q) : 0 < minSqDist pts pos := by
  cases pts with
  | nil => exact absurd rfl hne
  | cons p rest =>
    simp only [minSqDist]
    exact foldl_min_pos pos rest _ (hall p (List.mem_cons_self _ _))
      (fun q hq => hall q (List.mem_cons_of_mem _ hq))

theorem minSqDist_eq_zero_of_mem {pts : List (List ℚ)} {pos : List ℚ}
    (h : pos ∈ pts) : minSqDist pts pos = 0 :=
  le_antisymm (by simpa [sqDist_self] using minSqDist_le pos h)
    (minSqDist_nonneg _ _)

/-! ## Lemmas about the inner scan of `downselect` -/

theorem bestCandidate_fold_inv (cands pts : List (List ℚ)) :
    ∀ (l : List Nat) (acc : Nat × ℚ),
    (∀ i ∈ l, 1 ≤ i ∧ i < cands.length) →
    0 ≤ acc.2 →
    (acc.1 = cands.length ∧ acc.2 = 0 ∨
      (1 ≤ acc.1 ∧ acc.1 < cands.length ∧
        acc.2 = minSqDist pts (cands.getD acc.1 []) ∧ 0 < acc.2)) →
    ∃ r : Nat × ℚ,
      l.foldl (fun jd i =>
        if jd.2 < minSqDist pts (cands.getD i []) then
          (i, minSqDist pts (cands.getD i []))
        else jd) acc = r ∧
      (∀ i ∈ l, minSqDist pts (cands.getD i []) ≤ r.2) ∧
      acc.2 ≤ r.2 ∧
      (r.1 = cands.length ∧ r.2 = 0 ∨
        (1 ≤ r.1 ∧ r.1 < cands.length ∧
          r.2 = minSqDist pts (cands.getD r.1 []) ∧ 0 < r.2)) := by
  intro l
  induction l with
  | nil =>
    intro acc _ hnn hinv
    exact ⟨acc, rfl, by simp, le_refl _, hinv⟩
  | cons i l' ih =>
    intro acc hl hnn hinv
    have hi := hl i (List.mem_cons_self _ _)
    have hl' : ∀ i2 ∈ l', 1 ≤ i2 ∧ i2 < cands.length :=
      fun i2 h2 => hl i2 (List.mem_cons_of_mem _ h2)
    simp only [List.foldl_cons]
    by_cases himp : acc.2 < minSqDist pts (cands.getD i [])
    · rw [if_pos himp]
      obtain ⟨r, hr, hmem, hacc, hrinv⟩ := ih (i, minSqDist pts (cands.getD i []))
        hl' (le_trans hnn (le_of_lt himp))
        (Or.inr ⟨hi.1, hi.2, rfl, lt_of_le_of_lt hnn himp⟩)
      refine ⟨r, hr, ?_, le_trans (le_of_lt himp) hacc, hrinv⟩
      intro i2 h2
      rcases List.mem_cons.1 h2 with rfl | h3
      · exact hacc
      · exact hmem i2 h3
    · rw [if_neg himp]
      obtain ⟨r, hr, hmem, hacc, hrinv⟩ := ih acc hl' hnn hinv
      refine ⟨r, hr, ?_, hacc, hrinv⟩
      intro i2 h2
      rcases List.mem_cons.1 h2 with rfl | h3
      · exact le_trans (not_lt.1 himp) hacc
      · exact hmem i2 h3

theorem bestCandidate_spec (cands pts : List (List ℚ)) :
    (∀ i, 1 ≤ i → i < cands.length →
      minSqDist pts (cands.getD i []) ≤ (bestCandidate cands pts).2) ∧
    ((bestCandidate cands pts).1 = cands.length ∧
        (bestCandidate cands pts).2 = 0 ∨
      (1 ≤ (bestCandidate cands pts).1 ∧
        (bestCandidate cands pts).1 < cands.length ∧
        (bestCandidate cands pts).2 =
          minSqDist pts (cands.getD (bestCandidate cands pts).1 []) ∧
        0 < (bestCandidate cands pts).2)) := by
  have hl : ∀ i ∈ List.range' 1 (cands.length - 1),
      1 ≤ i ∧ i < cands.length := by
    intro i hi
    rw [List.mem_range'_1] at hi
    omega
  obtain ⟨r, hr, hmem, _, hrinv⟩ :=
    bestCandidate_fold_inv cands pts (List.range' 1 (cands.length - 1))
      (cands.length, 0) hl (le_refl 0) (Or.inl ⟨rfl, rfl⟩)
  have hbc : bestCandidate cands pts = r := hr
  rw [hbc]
  refine ⟨?_, hrinv⟩
  intro i h1 h2
  exact hmem i (by rw [List.mem_range'_1]; omega)

theorem exists_not_mem_of_length_lt (ids : List Nat) (M : Nat)
    (hnd : ids.Nodup) (_hlt : ∀ j ∈ ids, j < M) (hlen : ids.length < M) :
    ∃ i, i < M ∧ i ∉ ids := by
  by_contra h
  push_neg at h
  have hsub : Finset.range M ⊆ ids.toFinset := by
    intro i hi
    rw [List.mem_toFinset]
    exact h i (Finset.mem_range.1 hi)
  have hcard := Finset.card_le_card hsub
  rw [Finset.card_range, List.toFinset_card_of_nodup hnd] at hcard
  omega

/-! ## Lemmas about the selection loop of `downselect` -/

theorem downselectAux_error_msg (cands : List (List ℚ)) :
    ∀ (k : Nat) (pts : List (List ℚ)) (ids : List Nat) (e : String),
      downselectAux cands k pts ids = .error e → e = downselectFailMsg := by
  intro k
  induction k with
  | zero =>
    intro pts ids e h
    exact absurd h (by simp [downselectAux])
  | succ k ih =>
    intro pts ids e h
    simp only [downselectAux] at h
    by_cases hc : (bestCandidate cands pts).1 = cands.length
    · rw [if_pos hc] at h
      exact (Except.error.inj h).symm
    · rw [if_neg hc] at h
      exact ih _ _ _ h

theorem downselectAux_ok_bound (cands : List (List ℚ)) :
    ∀ (k : Nat) (pts : List (List ℚ)) (ids : List Nat) (out : List Nat),
      pts.Nodup → (∀ p ∈ pts, p ∈ cands) → pts.length = ids.length →
      downselectAux cands k pts ids = .ok out →
      ids.length + k ≤ cands.dedup.length := by
  intro k
  induction k with
  | zero =>
    intro pts ids out hnd hsub hlen _
    have h1 : pts.toFinset.card = pts.length := List.toFinset_card_of_nodup hnd
    have h2 : pts.toFinset ⊆ cands.toFinset := by
      intro p hp
      rw [List.mem_toFinset] at hp ⊢
      exact hsub p hp
    have h3 := Finset.card_le_card h2
    rw [h1, List.card_toFinset] at h3
    omega
  | succ k ih =>
    intro pts ids out hnd hsub hlen h
    simp only [downselectAux] at h
    by_cases hc : (bestCandidate cands pts).1 = cands.length
    · rw [if_pos hc] at h
      exact absurd h (by simp)
    · rw [if_neg hc] at h
      obtain ⟨_, hinv⟩ := bestCandidate_spec cands pts
      rcases hinv with ⟨h1, _⟩ | ⟨hj1, hjM, hjd, hjpos⟩
      · exact absurd h1 hc
      · have hnewmem : cands.getD (bestCandidate cands pts).1 [] ∈ cands := by
          rw [List.getD_eq_getElem _ _ hjM]
          exact List.getElem_mem _
        have hnotin : cands.getD (bestCandidate cands pts).1 [] ∉ pts := by
          intro hmem
          have hz := minSqDist_eq_zero_of_mem hmem
          rw [hjd, hz] at hjpos
          exact lt_irrefl 0 hjpos
        have hnd' :
            (pts ++ [cands.getD (bestCandidate cands pts).1 []]).Nodup := by
          rw [List.nodup_append]
          exact ⟨hnd, List.nodup_singleton _, by simpa using hnotin⟩
        have hsub' : ∀ p ∈ pts ++ [cands.getD (bestCandidate cands pts).1 []],
            p ∈ cands := by
          intro p hp
          rcases List.mem_append.1 hp with h2 | h2
          · exact hsub p h2
          · rw [List.mem_singleton] at h2
            rw [h2]
            exact hnewmem
        have hlen' :
            (pts ++ [cands.getD (bestCandidate cands pts).1 []]).length =
              (ids ++ [(bestCandidate cands pts).1]).length := by
          simp [hlen]
        have hb := ih _ _ out hnd' hsub' hlen' h
        simp only [List.length_append, List.length_singleton] at hb
        omega

theorem downselectAux_ok (cands : List (List ℚ)) (hnd : cands.Nodup)
    (hdim : ∀ p ∈ cands, ∀ q ∈ cands, p.length = q.length) :
    ∀ (k : Nat) (ids : List Nat),
      ids ≠ [] → 0 ∈ ids → ids.Nodup → (∀ j ∈ ids, j < cands.length) →
      ids.length + k ≤ cands.length →
      ∃ out : List Nat,
        downselectAux cands k (ids.map (fun j => cands.getD j [])) ids =
          .ok out ∧
        out.length = ids.length + k ∧
        out.take ids.length = ids ∧
        out.Nodup ∧
        (∀ j ∈ out, j < cands.length) ∧
        ∀ n : Nat, ids.length ≤ n + 1 → n + 1 < out.length →
          out.getD (n+1) 0 ∉ out.take (n+1) ∧
          out.getD (n+1) 0 < cands.length ∧
          ∀ i, i < cands.length → i ∉ out.take (n+1) →
            minSqDist ((out.take (n+1)).map (fun j => cands.getD j []))
                (cands.getD i []) ≤
              minSqDist ((out.take (n+1)).map (fun j => cands.getD j []))
                (cands.getD (out.getD (n+1) 0) []) := by
  intro k
  induction k with
  | zero =>
    intro ids hne h0 hidnd hbnd _
    refine ⟨ids, rfl, by simp, List.take_length ids, hidnd, hbnd, ?_⟩
    intro n hge hlt
    exact absurd (lt_of_le_of_lt hge hlt) (lt_irrefl _)
  | succ k ih =>
    intro ids hne h0 hidnd hbnd hlen
    set pts := ids.map (fun j => cands.getD j []) with hpts
    have hptsne : pts ≠ [] := by
      rw [hpts]
      simpa using hne
    obtain ⟨i0, hi0M, hi0nm⟩ :=
      exists_not_mem_of_length_lt ids cands.length hidnd hbnd (by omega)
    have hdpos : 0 < minSqDist pts (cands.getD i0 []) := by
      apply minSqDist_pos _ hptsne
      intro q hq
      rw [hpts] at hq
      obtain ⟨j2, hj2, rfl⟩ := List.mem_map.1 hq
      have hj2M := hbnd j2 hj2
      have hne2 : cands.getD i0 [] ≠ cands.getD j2 [] := by
        intro heq
        have hij : i0 = j2 := by
          have h1 := List.getD_eq_getElem cands [] hi0M
          have h2 := List.getD_eq_getElem cands [] hj2M
          rw [h1, h2] at heq
          exact (List.Nodup.getElem_inj_iff hnd).1 heq
        exact hi0nm (hij ▸ hj2)
      have hlen2 : (cands.getD i0 []).length = (cands.getD j2 []).length := by
        have hmi : cands.getD i0 [] ∈ cands := by
          rw [List.getD_eq_getElem _ _ hi0M]
          exact List.getElem_mem _
        have hmj : cands.getD j2 [] ∈ cands := by
          rw [List.getD_eq_getElem _ _ hj2M]
          exact List.getElem_mem _
        exact hdim _ hmi _ hmj
      exact sqDist_pos_of_ne hlen2 hne2
    obtain ⟨hmax, hinv⟩ := bestCandidate_spec cands pts
    have h1i0 : 1 ≤ i0 := by
      rcases Nat.eq_zero_or_pos i0 with hz | hp
      · exact absurd (hz ▸ h0) hi0nm
      · exact hp
    have hrpos : 0 < (bestCandidate cands pts).2 :=
      lt_of_lt_of_le hdpos (hmax i0 h1i0 hi0M)
    rcases hinv with ⟨_, hd0⟩ | ⟨hj1, hjM, hjd, _⟩
    · rw [hd0] at hrpos
      exact absurd hrpos (lt_irrefl 0)
    set j := (bestCandidate cands pts).1 with hjdef
    have hcneq : ¬j = cands.length := by omega
    have hjnm : j ∉ ids := by
      intro hmem
      have hmemp : cands.getD j [] ∈ pts := by
        rw [hpts]
        exact List.mem_map.2 ⟨j, hmem, rfl⟩
      have hz := minSqDist_eq_zero_of_mem hmemp
      rw [hjd, hz] at hrpos
      exact lt_irrefl 0 hrpos
    simp only [downselectAux]
    rw [if_neg hcneq]
    have hpts' : (ids ++ [j]).map (fun j2 => cands.getD j2 []) =
        pts ++ [cands.getD j []] := by
      rw [hpts]
      simp
    rw [← hpts']
    have hndid' : (ids ++ [j]).Nodup := by
      rw [List.nodup_append]
      exact ⟨hidnd, List.nodup_singleton _, by simpa using hjnm⟩
    have hbnd' : ∀ j2 ∈ ids ++ [j], j2 < cands.length := by
      intro j2 hj2
      rcases List.mem_append.1 hj2 with h2 | h2
      · exact hbnd j2 h2
      · rw [List.mem_singleton] at h2
        rw [h2]
        exact hjM
    obtain ⟨out, hout, houtlen, houttake, houtnd, houtbnd, houtgreedy⟩ :=
      ih (ids ++ [j]) (by simp) (List.mem_append_left _ h0) hndid' hbnd'
        (by simp only [List.length_append, List.length_singleton]; omega)
    have htake1 : out.take (ids.length + 1) = ids ++ [j] := by
      simpa using houttake
    have htake0 : out.take ids.length = ids := by
      have h2 : out.take ids.length =
          (out.take (ids.length + 1)).take ids.length := by
        rw [List.take_take]
        congr 1
        omega
      rw [h2, htake1, List.take_left]
    refine ⟨out, hout, ?_, htake0, houtnd, houtbnd, ?_⟩
    · simp only [List.length_append, List.length_singleton] at houtlen
      omega
    · intro n hge hlt
      by_cases hcase : ids.length = n + 1
      · have htaken : out.take (n + 1) = ids := by
          rw [← hcase]
          exact htake0
        have hsplit : (ids ++ [j]) ++ out.drop (ids.length + 1) = out := by
          rw [← htake1]
          exact List.take_append_drop _ _
        have hget : out.getD (n + 1) 0 = j := by
          rw [← hcase, ← hsplit, List.getD_append, List.getD_append_right]
          · simp
          · exact le_refl _
          · simp only [List.length_append, List.length_singleton]
            omega
        rw [htaken, hget, ← hpts]
        refine ⟨hjnm, hjM, ?_⟩
        intro i hiM hinm
        have h1i : 1 ≤ i := by
          rcases Nat.eq_zero_or_pos i with hz | hp
          · exact absurd (hz ▸ h0) hinm
          · exact hp
        calc minSqDist pts (cands.getD i []) ≤ (bestCandidate cands pts).2 :=
              hmax i h1i hiM
          _ = minSqDist pts (cands.getD j []) := hjd
      · exact houtgreedy n
          (by simp only [List.length_append, List.length_singleton]; omega) hlt

/-! ## Claim theorems: downselection -/

/-- `downselect` raises the search-exhaustion error whenever the requested
count exceeds the number of distinct candidate points of a non-empty pool:
each successful iteration selects a point at positive distance from — hence
distinct from — every point selected before it. -/
theorem downselect_error_of_few_distinct {α : Type} (rows : List α)
    (coords : α → List ℚ) (np : Nat) (hne : rows ≠ [])
    (hnp : ((rows.map coords).dedup).length < np) :
    downselect rows coords np = .error downselectFailMsg := by
  cases rows with
  | nil => exact absurd rfl hne
  | cons r0 rest =>
    simp only [downselect]
    rcases hres : downselectAux ((r0 :: rest).map coords) (np - 1)
        [coords r0] [0] with e | out
    · have hmsg := downselectAux_error_msg ((r0 :: rest).map coords)
        (np - 1) _ _ _ hres
      rw [hmsg]
      rfl
    · exfalso
      have hsub : ∀ p ∈ [coords r0], p ∈ (r0 :: rest).map coords := by
        intro p hp
        rw [List.mem_singleton] at hp
        rw [hp]
        exact List.mem_map.2 ⟨r0, List.mem_cons_self _ _, rfl⟩
      have hb := downselectAux_ok_bound ((r0 :: rest).map coords) (np - 1)
        [coords r0] [0] out (List.nodup_singleton _) hsub (by simp) hres
      simp only [List.length_singleton] at hb
      omega

/-- [C2] counterexample: on a candidate pool of M = 2 points that are not
pairwise distinct, `downselect` with `num_points = 2` (so `1 ≤ num_points ≤
M`) does not select two points — it raises the search-exhaustion error,
because the strict `dist > 0` test never admits a duplicate of the seed. -/
theorem downselect_duplicate_counterexample :
    downselect [[(0 : ℚ)], [0]] (fun p => p) 2 = .error downselectFailMsg :=
  downselect_error_of_few_distinct [[(0 : ℚ)], [0]] (fun p => p) 2
    (by simp) (by decide)

/-- [C2] amended with pairwise-distinct candidate points (required — see the
duplicate counterexample): for a cache of M pairwise-distinct candidate
points of equal dimension and `1 ≤ num_points ≤ M`, `downselect` (without
`previous_samples`) selects exactly `num_points` original rows; index 0 is
always the seed, no index repeats, and each subsequently selected index
maximises — over the not-yet-selected candidates — the minimum squared
Euclidean distance to the points selected so far (squared distances compare
exactly as the Euclidean distances computed by the KD-tree do); the cache is
replaced by the selected rows in order of selection. -/
theorem downselect_spec {α : Type} (rows : List α) (coords : α → List ℚ)
    (np : Nat) (hnp1 : 1 ≤ np) (hnpM : np ≤ rows.length)
    (hnd : (rows.map coords).Nodup)
    (hdim : ∀ r ∈ rows, ∀ r2 ∈ rows, (coords r).length = (coords r2).length) :
    ∃ ids : List Nat,
      downselect rows coords np =
        .ok (ids.filterMap (fun j => rows.get? j)) ∧
      (ids.filterMap (fun j => rows.get? j)).length = np ∧
      ids.length = np ∧
      ids.take 1 = [0] ∧
      ids.Nodup ∧
      (∀ j ∈ ids, j < rows.length) ∧
      ∀ n : Nat, n + 1 < ids.length →
        ids.getD (n+1) 0 ∉ ids.take (n+1) ∧
        ids.getD (n+1) 0 < rows.length ∧
        ∀ i, i < rows.length → i ∉ ids.take (n+1) →
          minSqDist ((ids.take (n+1)).map
              (fun j => (rows.map coords).getD j []))
            ((rows.map coords).getD i []) ≤
          minSqDist ((ids.take (n+1)).map
              (fun j => (rows.map coords).getD j []))
            ((rows.map coords).getD (ids.getD (n+1) 0) []) := by
  cases rows with
  | nil =>
    simp only [List.length_nil] at hnpM
    omega
  | cons r0 rest =>
    have hdim' : ∀ p ∈ (r0 :: rest).map coords, ∀ q ∈ (r0 :: rest).map coords,
        p.length = q.length := by
      intro p hp q hq
      obtain ⟨rp, hrp, rfl⟩ := List.mem_map.1 hp
      obtain ⟨rq, hrq, rfl⟩ := List.mem_map.1 hq
      exact hdim rp hrp rq hrq
    obtain ⟨out, hout, hlen, htake, hnodup, hbound, hgreedy⟩ :=
      downselectAux_ok ((r0 :: rest).map coords) hnd hdim' (np - 1) [0]
        (by simp) (by simp) (List.nodup_singleton 0)
        (by intro j hj; rw [List.mem_singleton] at hj; subst hj; simp)
        (by simp only [List.length_singleton, List.length_map,
              List.length_cons, List.length_nil]
            simp only [List.length_cons] at hnpM
            omega)
    have hbound' : ∀ j ∈ out, j < (r0 :: rest).length := by
      intro j hj
      have := hbound j hj
      simpa using this
    have hfmlen :
        (out.filterMap (fun j => (r0 :: rest).get? j)).length = out.length := by
      apply length_filterMap_of_isSome
      intro j hj
      have hjlt := hbound' j hj
      rw [List.get?_eq_getElem?, List.getElem?_eq_getElem hjlt]
      rfl
    have houtnp : out.length = np := by
      rw [hlen]
      simp only [List.length_singleton]
      omega
    refine ⟨out, ?_, ?_, houtnp, ?_, hnodup, hbound', ?_⟩
    · simp only [downselect]
      have hmap : ([0] : List Nat).map
          (fun j => ((r0 :: rest).map coords).getD j []) = [coords r0] := by
        simp
      rw [hmap] at hout
      rw [hout]
      rfl
    · rw [hfmlen, houtnp]
    · simpa using htake
    · intro n hlt
      have hg := hgreedy n
        (by simp only [List.length_singleton]; omega) hlt
      simpa only [List.length_map] using hg

/-- [C2] witness: three distinct one-dimensional points, selecting two. -/
theorem downselect_spec_witness :
    ∃ ids : List Nat,
      downselect [[(0 : ℚ)], [3], [1]] (fun p => p) 2 =
        .ok (ids.filterMap (fun j => [[(0 : ℚ)], [3], [1]].get? j)) ∧
      (ids.filterMap (fun j => [[(0 : ℚ)], [3], [1]].get? j)).length = 2 ∧
      ids.length = 2 ∧
      ids.take 1 = [0] ∧
      ids.Nodup ∧
      (∀ j ∈ ids, j < [[(0 : ℚ)], [3], [1]].length) ∧
      ∀ n : Nat, n + 1 < ids.length →
        ids.getD (n+1) 0 ∉ ids.take (n+1) ∧
        ids.getD (n+1) 0 < [[(0 : ℚ)], [3], [1]].length ∧
        ∀ i, i < [[(0 : ℚ)], [3], [1]].length → i ∉ ids.take (n+1) →
          minSqDist ((ids.take (n+1)).map
              (fun j => ([[(0 : ℚ)], [3], [1]].map (fun p => p)).getD j []))
            (([[(0 : ℚ)], [3], [1]].map (fun p => p)).getD i []) ≤
          minSqDist ((ids.take (n+1)).map
              (fun j => ([[(0 : ℚ)], [3], [1]].map (fun p => p)).getD j []))
            (([[(0 : ℚ)], [3], [1]].map (fun p => p)).getD
              (ids.getD (n+1) 0) []) :=
  downselect_spec [[(0 : ℚ)], [3], [1]] (fun p => p) 2 (by omega) (by decide)
    (by decide) (by decide)

/-- [C6] counterexample: on the empty candidate pool (0 selectable distinct
points) with `num_points = 1 > 0`, the code raises an `IndexError` at
`candidates[0]`, not the search-exhaustion error the claim promises for
every pool. -/
theorem downselect_empty_pool_counterexample :
    downselect ([] : List (List ℚ)) (fun p => p) 1 =
        .error "IndexError: list index out of range" ∧
      "IndexError: list index out of range" ≠ downselectFailMsg :=
  ⟨rfl, by decide⟩

/-- [C6] amended to non-empty pools: whenever the requested `num_points`
exceeds the number of distinct candidate points of a non-empty pool, some
iteration finds no candidate with positive nearest-selected distance and
`downselect` raises the search-exhaustion error. -/
theorem downselect_exhaustion {α : Type} (rows : List α)
    (coords : α → List ℚ) (np : Nat) (hne : rows ≠ [])
    (hnp : ((rows.map coords).dedup).length < np) :
    downselect rows coords np = .error downselectFailMsg :=
  downselect_error_of_few_distinct rows coords np hne hnp

/-- [C6] witness: a pool of two equal points (one distinct value), asking
for three. -/
theorem downselect_exhaustion_witness :
    downselect [[(0 : ℚ)], [0]] (fun p => p) 3 = .error downselectFailMsg :=
  downselect_exhaustion [[(0 : ℚ)], [0]] (fun p => p) 3 (by simp) (by decide)

end Scisample
